import Mathlib

/-!
Shallow embedding of the RAD-seq library-preparation pipeline from
`nb-13.2-RAD-short.ipynb`.  Sequences are lists of characters; every
stage of the notebook (restriction digest, complement, adapter/barcode
ligation, shearing, end repair, PCR) is translated function by function.
Python string slices are modelled by `pyIdx`/`pySlice` (negative indices,
clamping); `np.linspace(0, L, n).astype(int)` is modelled as the exact
linear interpolation `i * L / (n - 1)` truncated to an integer.
-/

namespace RAD

/-- Resolution of a Python slice endpoint for a string of length `L`:
a negative index counts from the end, and the result is clamped to `[0, L]`. -/
def pyIdx (L : Nat) (i : Int) : Nat :=
  if i < 0 then L - (-i).toNat else min i.toNat L

/-- Python slice `s[i:j]` (step 1) on a list of characters. -/
def pySlice (s : List Char) (i j : Int) : List Char :=
  (s.take (pyIdx s.length j)).drop (pyIdx s.length i)

/-- One step of Python `str.replace` for a single-character pattern,
applied pointwise. -/
def replOne (a b c : Char) : Char :=
  if c = a then b else c

/-- Python `s.replace(a, b)` for single-character `a`, `b`. -/
def replaceChar (a b : Char) (s : List Char) : List Char :=
  s.map (replOne a b)

/-- `complement` from the notebook: the chain
`.replace("C","g").replace("G","c").replace("T","a").replace("A","t").upper()`. -/
def complement (s : List Char) : List Char :=
  (replaceChar 'A' 't' (replaceChar 'T' 'a' (replaceChar 'G' 'c'
    (replaceChar 'C' 'g' s)))).map Char.toUpper

/-- The TruSeq Illumina adapter I literal from the notebook. -/
def ILLUMINA_ADAPTER_1 : List Char := "AGATCGGAAGAGCACACGTCTGAACTCCAGTCA".toList

/-- The TruSeq Illumina adapter II literal from the notebook. -/
def ILLUMINA_ADAPTER_2 : List Char := "AGATCGGAAGAGCGTCGTGTAGGGAAAGAGTGT".toList

/-- The poly-A spacer literal used by the end-repair stage. -/
def POLY_A : List Char := "AAAAAAAAAAAAAA".toList

/-- Worker for Python `sequence.split(sep)` with a nonempty separator:
greedy left-to-right scan, `acc` holds the characters of the current piece
in reverse.  The scan consumes at least one input character per step, so it
is given the input length as structural fuel; the fuel-exhausted branch is
unreachable whenever `s.length ≤ fuel` and `sep` is nonempty. -/
def splitFuel (sep : List Char) : Nat → List Char → List Char → List (List Char)
  | 0, acc, s => [acc.reverse ++ s]
  | _ + 1, acc, [] => [acc.reverse]
  | fuel + 1, acc, c :: rest =>
    if sep.isPrefixOf (c :: rest) then
      acc.reverse :: splitFuel sep fuel [] ((c :: rest).drop sep.length)
    else
      splitFuel sep fuel (c :: acc) rest

/-- Python `sequence.split(sep)`.  Python raises `ValueError` on an empty
separator; that case is unreachable in the notebook and is given a dummy
value here. -/
def splitOnSep (sep s : List Char) : List (List Char) :=
  if 0 < sep.length then splitFuel sep s.length [] s else [s]

/-- Number of non-overlapping occurrences of `sep`, counted by the same
greedy left-to-right scan that `str.split` uses, with the same fuel
discipline as `splitFuel`. -/
def countOccFuel (sep : List Char) : Nat → List Char → Nat
  | 0, _ => 0
  | _ + 1, [] => 0
  | fuel + 1, c :: rest =>
    if sep.isPrefixOf (c :: rest) then
      countOccFuel sep fuel ((c :: rest).drop sep.length) + 1
    else
      countOccFuel sep fuel rest

/-- Count of non-overlapping occurrences of a motif (0 for the unreachable
empty-motif case). -/
def countOccurrences (sep s : List Char) : Nat :=
  if 0 < sep.length then countOccFuel sep s.length s else 0

/-- `restriction_digest` from the notebook: split at every occurrence of the
recognition site, then attach `recognition[cut:]` in front of and
`recognition[:cut]` behind every piece. -/
def restriction_digest (sequence recognition : List Char) (cut : Nat) :
    List (List Char) :=
  (splitOnSep recognition sequence).map
    (fun i => recognition.drop cut ++ i ++ recognition.take cut)

/-- The molecule built by `ligate_barcoded_adapters` for one fragment:
`complement(ILLUMINA_ADAPTER_1)[::-1] + complement(barcode)[::-1] +
recognition[-cut:-(len(recognition)-cut)] + fragment + barcode +
ILLUMINA_ADAPTER_1`. -/
def ligate_one (recognition : List Char) (cut : Nat)
    (barcode fragment : List Char) : List Char :=
  ((complement ILLUMINA_ADAPTER_1).reverse
      ++ (complement barcode).reverse
      ++ pySlice recognition (-(cut : Int))
          (-((recognition.length : Int) - (cut : Int))))
    ++ fragment
    ++ (barcode ++ ILLUMINA_ADAPTER_1)

/-- `ligate_barcoded_adapters` from the notebook. -/
def ligate_barcoded_adapters (fragments : List (List Char))
    (recognition : List Char) (cut : Nat) (barcode : List Char) :
    List (List Char) :=
  fragments.map (ligate_one recognition cut barcode)

/-- `np.linspace(0, L, n).astype(int)`, modelled as the exact linear
interpolation over `n` sample points truncated to integers. -/
def linspaceInt (L n : Nat) : List Nat :=
  (List.range n).map (fun i => i * L / (n - 1))

/-- The inner slicing loop of `shear_DNA_to_size_select`: successive Python
slices `fragment[idx:end]` where `idx` is the previous breakpoint. -/
def chunks (fragment : List Char) : Nat → List Nat → List (List Char)
  | _, [] => []
  | idx, e :: rest => (fragment.take e).drop idx :: chunks fragment e rest

/-- The pieces `shear_DNA_to_size_select` emits for a single fragment:
`nfrags = max(2, len(fragment) / size)` breakpoints from `linspace`, and
one slice per breakpoint after the first. -/
def shearPieces (fragment : List Char) (size : Nat) : List (List Char) :=
  chunks fragment 0
    ((linspaceInt fragment.length (max 2 (fragment.length / size))).drop 1)

/-- `shear_DNA_to_size_select` from the notebook. -/
def shear_DNA_to_size_select (fragments : List (List Char)) (size : Nat) :
    List (List Char) :=
  fragments.flatMap (fun fragment => shearPieces fragment size)

/-- Python `frag[-33:]`. -/
def last33 (s : List Char) : List Char :=
  s.drop (s.length - 33)

/-- The body of the `end_repair_and_adapter_ligation` loop: an adapter-II
block is prepended when the first 33 characters are not the reverse
complement of adapter I, then (on the possibly extended fragment) a poly-A
tail and adapter II are appended when the last 33 characters are not
adapter I. -/
def end_repair_one (frag : List Char) : List Char :=
  let frag1 :=
    if frag.take 33 ≠ (complement ILLUMINA_ADAPTER_1).reverse then
      (complement ILLUMINA_ADAPTER_2).reverse ++ complement POLY_A ++ frag
    else frag
  if last33 frag1 ≠ ILLUMINA_ADAPTER_1 then
    frag1 ++ POLY_A ++ ILLUMINA_ADAPTER_2
  else frag1

/-- `end_repair_and_adapter_ligation` from the notebook. -/
def end_repair_and_adapter_ligation (fragments : List (List Char)) :
    List (List Char) :=
  fragments.map end_repair_one

/-- What the `PCR` loop appends to the library for one fragment: both `if`
blocks of the loop body, in order. -/
def PCR_one (fragment : List Char) : List (List Char) :=
  (if fragment.take 33 = (complement ILLUMINA_ADAPTER_1).reverse
      ∧ last33 fragment = ILLUMINA_ADAPTER_2
   then [fragment] else [])
  ++
  (if fragment.take 33 = (complement ILLUMINA_ADAPTER_2).reverse
      ∧ last33 fragment = ILLUMINA_ADAPTER_1
   then [(complement fragment).reverse] else [])

/-- `PCR` from the notebook. -/
def PCR (fragments : List (List Char)) : List (List Char) :=
  fragments.flatMap PCR_one

/-- The pointwise effect of the replace chain in `complement` on a single
character. -/
def complementChar (c : Char) : Char :=
  Char.toUpper (replOne 'A' 't' (replOne 'T' 'a' (replOne 'G' 'c'
    (replOne 'C' 'g' c))))

/-- The fixed base pairing of the specification: `A` with `T` and `C` with
`G`, every other character left alone. -/
def basePair (c : Char) : Char :=
  if c = 'A' then 'T'
  else if c = 'T' then 'A'
  else if c = 'C' then 'G'
  else if c = 'G' then 'C'
  else c

/-- The amplification keep rule as the specification words it: a fragment
whose leading 33 characters are the reverse complement of adapter I and
whose trailing 33 characters are adapter II is kept as is; a fragment whose
leading 33 characters are the reverse complement of adapter II and whose
trailing 33 characters are adapter I is kept after reverse-complementing the
whole fragment; every other fragment is discarded. -/
def amplifyKeep (f : List Char) : List (List Char) :=
  if f.take 33 = (complement ILLUMINA_ADAPTER_1).reverse
      ∧ last33 f = ILLUMINA_ADAPTER_2 then [f]
  else if f.take 33 = (complement ILLUMINA_ADAPTER_2).reverse
      ∧ last33 f = ILLUMINA_ADAPTER_1 then [(complement f).reverse]
  else []

/-! ## Helper lemmas -/

theorem complement_eq_map (s : List Char) : complement s = s.map complementChar := by
  induction s with
  | nil => rfl
  | cons c t ih =>
    show complementChar c :: complement t = complementChar c :: t.map complementChar
    rw [ih]

theorem complement_length (s : List Char) : (complement s).length = s.length := by
  rw [complement_eq_map, List.length_map]

theorem adapter1_length : ILLUMINA_ADAPTER_1.length = 33 := by decide

theorem rc_adapters_distinct :
    (complement ILLUMINA_ADAPTER_1).reverse ≠ (complement ILLUMINA_ADAPTER_2).reverse := by
  decide

theorem adapters_distinct : ILLUMINA_ADAPTER_1 ≠ ILLUMINA_ADAPTER_2 := by decide

theorem PCR_cons (a : List Char) (t : List (List Char)) :
    PCR (a :: t) = PCR_one a ++ PCR t := by
  simp [PCR]

theorem PCR_one_length_le (f : List Char) : (PCR_one f).length ≤ 1 := by
  unfold PCR_one
  by_cases h1 : f.take 33 = (complement ILLUMINA_ADAPTER_1).reverse
      ∧ last33 f = ILLUMINA_ADAPTER_2
  · have h2 : ¬ (f.take 33 = (complement ILLUMINA_ADAPTER_2).reverse
        ∧ last33 f = ILLUMINA_ADAPTER_1) := by
      rintro ⟨h2a, h2b⟩
      exact rc_adapters_distinct (h1.1.symm.trans h2a)
    simp [h1, h2]
    exact fun _ h => adapters_distinct h.symm
  · simp only [h1, if_false, List.nil_append]
    split
    · simp
    · simp

theorem PCR_one_eq_amplifyKeep (f : List Char) : PCR_one f = amplifyKeep f := by
  unfold PCR_one amplifyKeep
  by_cases h1 : f.take 33 = (complement ILLUMINA_ADAPTER_1).reverse
      ∧ last33 f = ILLUMINA_ADAPTER_2
  · have h2 : ¬ (f.take 33 = (complement ILLUMINA_ADAPTER_2).reverse
        ∧ last33 f = ILLUMINA_ADAPTER_1) := by
      rintro ⟨h2a, h2b⟩
      exact rc_adapters_distinct (h1.1.symm.trans h2a)
    simp [h1, h2]
    exact fun _ h => adapters_distinct h.symm
  · simp [h1]

theorem PCR_keep_all (l : List (List Char))
    (h : ∀ f ∈ l, f.take 33 = (complement ILLUMINA_ADAPTER_1).reverse
        ∧ last33 f = ILLUMINA_ADAPTER_2) :
    PCR l = l := by
  induction l with
  | nil => simp [PCR]
  | cons a t ih =>
    rw [PCR_cons]
    have ha := h a (List.mem_cons_self a t)
    have h2 : ¬ (a.take 33 = (complement ILLUMINA_ADAPTER_2).reverse
        ∧ last33 a = ILLUMINA_ADAPTER_1) := by
      rintro ⟨h2a, h2b⟩
      exact rc_adapters_distinct (ha.1.symm.trans h2a)
    have h3 : PCR_one a = [a] := by
      unfold PCR_one
      simp [ha, h2]
      exact fun _ h => adapters_distinct h.symm
    rw [h3, ih (fun f hf => h f (List.mem_cons_of_mem a hf))]
    rfl

theorem PCR_drop_all (l : List (List Char))
    (h : ∀ f ∈ l, f.take 33 = (complement ILLUMINA_ADAPTER_1).reverse
        ∧ last33 f = ILLUMINA_ADAPTER_1) :
    PCR l = [] := by
  induction l with
  | nil => simp [PCR]
  | cons a t ih =>
    rw [PCR_cons]
    have ha := h a (List.mem_cons_self a t)
    have h1 : ¬ (a.take 33 = (complement ILLUMINA_ADAPTER_1).reverse
        ∧ last33 a = ILLUMINA_ADAPTER_2) := by
      rintro ⟨h1a, h1b⟩
      exact adapters_distinct (ha.2.symm.trans h1b)
    have h2 : ¬ (a.take 33 = (complement ILLUMINA_ADAPTER_2).reverse
        ∧ last33 a = ILLUMINA_ADAPTER_1) := by
      rintro ⟨h2a, h2b⟩
      exact rc_adapters_distinct (ha.1.symm.trans h2a)
    have h3 : PCR_one a = [] := by
      unfold PCR_one
      simp [h1, h2]
    rw [h3, ih (fun f hf => h f (List.mem_cons_of_mem a hf))]
    rfl

theorem splitFuel_length_eq (sep : List Char) (hsep : 0 < sep.length) :
    ∀ (fuel : Nat) (s acc : List Char), s.length ≤ fuel →
      (splitFuel sep fuel acc s).length = countOccFuel sep fuel s + 1 := by
  intro fuel
  induction fuel with
  | zero =>
    intro s acc _
    simp [splitFuel, countOccFuel]
  | succ n ih =>
    intro s acc hlen
    cases s with
    | nil => simp [splitFuel, countOccFuel]
    | cons c rest =>
      by_cases hp : sep.isPrefixOf (c :: rest)
      · simp only [splitFuel, countOccFuel, hp, if_true, List.length_cons]
        rw [ih ((c :: rest).drop sep.length) []
          (by simp only [List.length_drop, List.length_cons]
              simp only [List.length_cons] at hlen
              omega)]
      · simp only [splitFuel, countOccFuel, hp, if_false]
        exact ih rest (c :: acc)
          (by simp only [List.length_cons] at hlen; omega)

theorem splitFuel_no_occurrence (sep : List Char) :
    ∀ (fuel : Nat) (s acc : List Char),
      countOccFuel sep fuel s = 0 →
      splitFuel sep fuel acc s = [acc.reverse ++ s] := by
  intro fuel
  induction fuel with
  | zero =>
    intro s acc _
    simp [splitFuel]
  | succ n ih =>
    intro s acc h0
    cases s with
    | nil => simp [splitFuel]
    | cons c rest =>
      by_cases hp : sep.isPrefixOf (c :: rest)
      · rw [countOccFuel] at h0
        simp [hp] at h0
      · simp only [countOccFuel, hp, if_false] at h0
        simp only [splitFuel, hp, if_false]
        rw [ih rest (c :: acc) h0]
        simp

theorem drop_take_append (t : List Char) (i j : Nat) (hij : i ≤ j) :
    (t.take j).drop i ++ t.drop j = t.drop i := by
  conv_rhs => rw [← List.take_append_drop j t]
  rw [List.drop_append_eq_append_drop]
  congr 1
  rw [List.length_take]
  rcases Nat.le_total j t.length with hj | hj
  · have h0 : i - min j t.length = 0 := by omega
    rw [h0, List.drop_zero]
  · have h1 : t.drop j = [] := List.drop_eq_nil_of_le hj
    rw [h1, List.drop_nil]

theorem slice_glue (s : List Char) (i j k : Nat) (hij : i ≤ j) (hjk : j ≤ k) :
    (s.take j).drop i ++ (s.take k).drop j = (s.take k).drop i := by
  have h1 : (s.take k).take j = s.take j := by
    rw [List.take_take, Nat.min_eq_left hjk]
  calc (s.take j).drop i ++ (s.take k).drop j
      = ((s.take k).take j).drop i ++ (s.take k).drop j := by rw [h1]
    _ = (s.take k).drop i := drop_take_append (s.take k) i j hij

theorem chain_le_getLastD :
    ∀ {e : Nat} {rest : List Nat}, List.Chain' (· ≤ ·) (e :: rest) →
      e ≤ rest.getLastD e := by
  intro e rest
  induction rest generalizing e with
  | nil => intro _; simp
  | cons a t ih =>
    intro h
    rw [List.getLastD_cons]
    obtain ⟨h1, h2⟩ := List.chain'_cons.mp h
    exact le_trans h1 (ih h2)

theorem chunks_length (s : List Char) :
    ∀ (idx : Nat) (es : List Nat), (chunks s idx es).length = es.length := by
  intro idx es
  induction es generalizing idx with
  | nil => rfl
  | cons e rest ih => simp [chunks, ih]

theorem chunks_flatten (s : List Char) :
    ∀ (idx : Nat) (es : List Nat), List.Chain' (· ≤ ·) (idx :: es) →
      (chunks s idx es).flatten = (s.take (es.getLastD idx)).drop idx := by
  intro idx es
  induction es generalizing idx with
  | nil =>
    intro _
    show List.flatten [] = (s.take idx).drop idx
    rw [List.flatten_nil]
    refine (List.drop_eq_nil_of_le ?_).symm
    rw [List.length_take]
    omega
  | cons e rest ih =>
    intro h
    obtain ⟨h1, h2⟩ := List.chain'_cons.mp h
    show ((s.take e).drop idx :: chunks s e rest).flatten =
      (s.take ((e :: rest).getLastD idx)).drop idx
    rw [List.flatten_cons, ih e h2, List.getLastD_cons]
    exact slice_glue s idx e (rest.getLastD e) h1 (chain_le_getLastD h2)

theorem linspaceInt_eq (L m : Nat) :
    linspaceInt L (m + 2) =
      0 :: (List.range (m + 1)).map (fun i => (i + 1) * L / (m + 1)) := by
  unfold linspaceInt
  rw [List.range_succ_eq_map, List.map_cons, List.map_map]
  norm_num

theorem linspaceInt_chain (L n : Nat) :
    List.Chain' (· ≤ ·) (linspaceInt L n) := by
  unfold linspaceInt
  refine List.Pairwise.chain' ?_
  refine List.Pairwise.map _ ?_ (List.pairwise_lt_range n)
  intro a b hab
  exact Nat.div_le_div_right (Nat.mul_le_mul_right L hab.le)

theorem linspaceInt_getLastD (L m : Nat) :
    (linspaceInt L (m + 2)).getLastD 0 = L := by
  unfold linspaceInt
  rw [List.range_succ, List.map_append]
  rw [List.map_cons, List.map_nil, List.getLastD_concat]
  show (m + 1) * L / (m + 1) = L
  exact Nat.mul_div_cancel_left L (Nat.succ_pos m)

theorem shearPieces_flatten (fragment : List Char) (size : Nat) :
    (shearPieces fragment size).flatten = fragment := by
  unfold shearPieces
  obtain ⟨m, hm⟩ : ∃ m, max 2 (fragment.length / size) = m + 2 :=
    ⟨max 2 (fragment.length / size) - 2, by omega⟩
  rw [hm, linspaceInt_eq, List.drop_succ_cons, List.drop_zero]
  rw [chunks_flatten fragment 0
    ((List.range (m + 1)).map (fun i => (i + 1) * fragment.length / (m + 1)))
    (by
      have h := linspaceInt_chain fragment.length (m + 2)
      rw [linspaceInt_eq] at h
      exact h)]
  have hlast :
      ((List.range (m + 1)).map
        (fun i => (i + 1) * fragment.length / (m + 1))).getLastD 0 =
      fragment.length := by
    have h0 := linspaceInt_getLastD fragment.length m
    rw [linspaceInt_eq, List.getLastD_cons] at h0
    exact h0
  rw [hlast, List.drop_zero, List.take_length]

theorem shearPieces_length (fragment : List Char) (size : Nat) :
    (shearPieces fragment size).length =
      max 2 (fragment.length / size) - 1 := by
  unfold shearPieces
  rw [chunks_length, List.length_drop]
  unfold linspaceInt
  rw [List.length_map, List.length_range]

/-! ## Claim theorems -/

/-- C4: the pieces emitted for one fragment are contiguous non-overlapping
slices whose in-order concatenation reconstructs the fragment exactly, and
the shear stage appends each fragment's pieces to the output library in
stable processing order. -/
theorem C4_shear_reconstructs (F : List Char) (T : Nat) (_hT : 0 < T)
    (fragments : List (List Char)) :
    (shearPieces F T).flatten = F ∧
    shear_DNA_to_size_select fragments T =
      fragments.flatMap (fun f => shearPieces f T) :=
  ⟨shearPieces_flatten F T, rfl⟩

/-- Witness for C4 at a concrete fragment and target size 3. -/
theorem C4_witness :
    0 < 3 ∧ (shearPieces "ACGTACGTACG".toList 3).flatten = "ACGTACGTACG".toList :=
  ⟨by decide, (C4_shear_reconstructs "ACGTACGTACG".toList 3 (by decide) []).1⟩

/-- C5 counterexample: the fragment `AB` has length 2 and the claimed piece
count `max 2 (len / T)` is 2, but shearing it at target size 300 emits a
single piece — the loop runs over `splits[1:]`, producing one piece fewer
than the breakpoint count. -/
theorem C5_counterexample :
    2 ≤ "AB".toList.length ∧
    (shearPieces "AB".toList 300).length = 1 ∧
    ¬ 2 ≤ (shearPieces "AB".toList 300).length := by
  refine ⟨by decide, by decide, by decide⟩

/-- C5 amended: for every fragment and positive target size, the number of
pieces emitted is `max 2 (len / T) - 1`, hence always at least one (not at
least two). -/
theorem C5_shear_piece_count (F : List Char) (T : Nat) (_hT : 0 < T) :
    (shearPieces F T).length = max 2 (F.length / T) - 1 ∧
    1 ≤ (shearPieces F T).length := by
  refine ⟨shearPieces_length F T, ?_⟩
  rw [shearPieces_length F T]
  omega

/-- Witness for the amended C5 at a concrete fragment of length 11 and
target size 3, which yields `max 2 3 - 1 = 2` pieces. -/
theorem C5_witness :
    0 < 3 ∧
    (shearPieces "ACGTACGTACG".toList 3).length =
      max 2 ("ACGTACGTACG".toList.length / 3) - 1 :=
  ⟨by decide, (C5_shear_piece_count "ACGTACGTACG".toList 3 (by decide)).1⟩

/-- C2: a restriction digest returns exactly one more fragment than the
number of non-overlapping occurrences of the recognition motif, and when
the motif does not occur it returns the single original scaffold with the
two overhang stubs attached. -/
theorem C2_digest_fragment_count (S recognition : List Char) (cut : Nat)
    (hrec : 0 < recognition.length) :
    (restriction_digest S recognition cut).length =
      countOccurrences recognition S + 1 ∧
    (countOccurrences recognition S = 0 →
      restriction_digest S recognition cut =
        [recognition.drop cut ++ S ++ recognition.take cut]) := by
  constructor
  · unfold restriction_digest splitOnSep countOccurrences
    rw [if_pos hrec, if_pos hrec, List.length_map]
    exact splitFuel_length_eq recognition hrec S.length S [] le_rfl
  · intro h0
    unfold countOccurrences at h0
    rw [if_pos hrec] at h0
    unfold restriction_digest splitOnSep
    rw [if_pos hrec, splitFuel_no_occurrence recognition S.length S [] h0]
    simp

/-- Witness for C2 at the worked example of the specification: the scaffold
`AACTGCAGAACTGCAGAA` with site `CTGCAG` has two motif occurrences and
digests into three fragments. -/
theorem C2_witness :
    (restriction_digest "AACTGCAGAACTGCAGAA".toList "CTGCAG".toList 5).length =
      countOccurrences "CTGCAG".toList "AACTGCAGAACTGCAGAA".toList + 1 ∧
    countOccurrences "CTGCAG".toList "AACTGCAGAACTGCAGAA".toList = 2 :=
  ⟨(C2_digest_fragment_count "AACTGCAGAACTGCAGAA".toList "CTGCAG".toList 5
      (by decide)).1, by decide⟩

/-- C7: on sequences over the alphabet `{A,C,G,T}`, `complement` is an
involution, preserves length, and acts as the pointwise base-pairing
substitution `A` with `T` and `C` with `G`, with no reordering. -/
theorem C7_complement_involution (s : List Char)
    (h : ∀ c ∈ s, c = 'A' ∨ c = 'C' ∨ c = 'G' ∨ c = 'T') :
    complement (complement s) = s ∧ (complement s).length = s.length ∧
      complement s = s.map basePair := by
  refine ⟨?_, complement_length s, ?_⟩
  · rw [complement_eq_map, complement_eq_map, List.map_map]
    have hid : ∀ c ∈ s, (complementChar ∘ complementChar) c = id c := by
      intro c hc
      rcases h c hc with h1 | h1 | h1 | h1 <;> subst h1 <;> decide
    rw [List.map_congr_left hid, List.map_id]
  · rw [complement_eq_map]
    refine List.map_congr_left ?_
    intro c hc
    rcases h c hc with h1 | h1 | h1 | h1 <;> subst h1 <;> decide

/-- Witness for C7 at the concrete sequence `ACGT`. -/
theorem C7_witness :
    complement (complement "ACGT".toList) = "ACGT".toList ∧
    (complement "ACGT".toList).length = "ACGT".toList.length ∧
    complement "ACGT".toList = "ACGT".toList.map basePair :=
  C7_complement_involution "ACGT".toList (by decide)

/-- C9: a fragment that already carries the reverse complement of adapter I
as its leading 33 characters and adapter I as its trailing 33 characters is
returned unchanged by the end-repair stage: neither repair branch fires. -/
theorem C9_end_repair_identity (fragments : List (List Char))
    (h : ∀ f ∈ fragments,
        f.take 33 = (complement ILLUMINA_ADAPTER_1).reverse ∧
        last33 f = ILLUMINA_ADAPTER_1) :
    end_repair_and_adapter_ligation fragments = fragments := by
  unfold end_repair_and_adapter_ligation
  have hid : ∀ f ∈ fragments, end_repair_one f = id f := by
    intro f hf
    obtain ⟨h1, h2⟩ := h f hf
    unfold end_repair_one
    simp [h1, h2]
  rw [List.map_congr_left hid, List.map_id]

/-- Witness for C9 at the concrete fragment made of the reverse complement
of adapter I followed by adapter I. -/
theorem C9_witness :
    end_repair_and_adapter_ligation
        [(complement ILLUMINA_ADAPTER_1).reverse ++ ILLUMINA_ADAPTER_1] =
      [(complement ILLUMINA_ADAPTER_1).reverse ++ ILLUMINA_ADAPTER_1] :=
  C9_end_repair_identity _ (by decide)

/-- C6: `PCR` implements exactly the keep rule of the specification
(keep as-is on a reverse-complemented-adapter-I head and adapter-II tail,
keep reverse-complemented on the mirror layout, drop everything else,
survivors in input order); it is the identity on a library in canonical
orientation and empty on a library whose every fragment has two
adapter-I ends. -/
theorem C6_pcr_selective_amplification (fragments : List (List Char)) :
    PCR fragments = fragments.flatMap amplifyKeep ∧
    ((∀ f ∈ fragments,
        f.take 33 = (complement ILLUMINA_ADAPTER_1).reverse ∧
        last33 f = ILLUMINA_ADAPTER_2) → PCR fragments = fragments) ∧
    ((∀ f ∈ fragments,
        f.take 33 = (complement ILLUMINA_ADAPTER_1).reverse ∧
        last33 f = ILLUMINA_ADAPTER_1) → PCR fragments = []) := by
  refine ⟨?_, PCR_keep_all fragments, PCR_drop_all fragments⟩
  unfold PCR
  rw [funext PCR_one_eq_amplifyKeep]

/-- Witness for C6: a singleton library in canonical orientation passes
through unchanged, and a singleton library with two adapter-I ends is
emptied. -/
theorem C6_witness :
    PCR [(complement ILLUMINA_ADAPTER_1).reverse ++ ILLUMINA_ADAPTER_2] =
      [(complement ILLUMINA_ADAPTER_1).reverse ++ ILLUMINA_ADAPTER_2] ∧
    PCR [(complement ILLUMINA_ADAPTER_1).reverse ++ ILLUMINA_ADAPTER_1] = [] :=
  ⟨(C6_pcr_selective_amplification _).2.1 (by decide),
   (C6_pcr_selective_amplification _).2.2 (by decide)⟩

/-- C10: the two keep branches of `PCR` are mutually exclusive — no
33-character window equals the reverse complements of both adapters — so
each input fragment contributes at most one output fragment and the output
library is never longer than the input. -/
theorem C10_pcr_no_duplicates :
    (∀ f : List Char,
      ¬ (f.take 33 = (complement ILLUMINA_ADAPTER_1).reverse ∧
         f.take 33 = (complement ILLUMINA_ADAPTER_2).reverse)) ∧
    (∀ f : List Char, (PCR_one f).length ≤ 1) ∧
    (∀ fragments : List (List Char), (PCR fragments).length ≤ fragments.length) := by
  refine ⟨?_, PCR_one_length_le, ?_⟩
  · rintro f ⟨h1, h2⟩
    exact rc_adapters_distinct (h1.symm.trans h2)
  · intro fragments
    induction fragments with
    | nil => simp [PCR]
    | cons a t ih =>
      rw [PCR_cons, List.length_append, List.length_cons]
      have := PCR_one_length_le a
      omega

theorem pySlice_neg_length (s : List Char) (cut : Nat) (hc : 0 < cut)
    (h2 : cut < s.length) :
    (pySlice s (-(cut : Int)) (-((s.length : Int) - (cut : Int)))).length =
      cut - (s.length - cut) := by
  unfold pySlice pyIdx
  have hi : (-(cut : Int)) < 0 := by omega
  have hj : (-((s.length : Int) - (cut : Int))) < 0 := by omega
  rw [if_pos hi, if_pos hj, neg_neg, neg_neg, Int.toNat_natCast, Int.toNat_sub,
    List.length_drop, List.length_take]
  omega

/-- C1 counterexample: at the standard parameters (site `CTGCAG`, cut 5,
barcode `AATTCC`) the ligated molecule is not the claimed concatenation
with the reverse complement of an overhang-length suffix of the motif as
its third block — neither for overhang length `len - cut = 1` nor for
overhang length `cut = 5`.  The code inserts the raw slice
`recognition[-cut:-(len-cut)]` (here `TGCA`, 4 characters) instead. -/
theorem C1_counterexample :
    ligate_barcoded_adapters ["GAACTGCA".toList] "CTGCAG".toList 5 "AATTCC".toList ≠
      [(complement ILLUMINA_ADAPTER_1).reverse ++ (complement "AATTCC".toList).reverse
        ++ (complement ("CTGCAG".toList.drop ("CTGCAG".toList.length - 1))).reverse
        ++ "GAACTGCA".toList ++ "AATTCC".toList ++ ILLUMINA_ADAPTER_1] ∧
    ligate_barcoded_adapters ["GAACTGCA".toList] "CTGCAG".toList 5 "AATTCC".toList ≠
      [(complement ILLUMINA_ADAPTER_1).reverse ++ (complement "AATTCC".toList).reverse
        ++ (complement ("CTGCAG".toList.drop ("CTGCAG".toList.length - 5))).reverse
        ++ "GAACTGCA".toList ++ "AATTCC".toList ++ ILLUMINA_ADAPTER_1] := by
  exact ⟨by decide, by decide⟩

/-- C1 amended: each ligated molecule is the concatenation of the reverse
complement of adapter I, the reverse complement of the barcode, the raw
Python slice `recognition[-cut:-(len(recognition)-cut)]`, the fragment, the
barcode and adapter I; and on a digest-shaped fragment at the standard site
`CTGCAG` with cut 5 the attached slice `TGCA` fuses with the digest stub `G`
so the molecule equals reverse-complemented adapter I, reverse-complemented
barcode, reverse-complemented overhang `CTGCA`, the core, the overhang, the
barcode and adapter I — mirror-complementary ends. -/
theorem C1_ligate_layout (fragments : List (List Char)) (recognition : List Char)
    (cut : Nat) (barcode core bc : List Char) :
    ligate_barcoded_adapters fragments recognition cut barcode =
      fragments.map (fun f =>
        (complement ILLUMINA_ADAPTER_1).reverse ++ (complement barcode).reverse
          ++ pySlice recognition (-(cut : Int))
              (-((recognition.length : Int) - (cut : Int)))
          ++ f ++ barcode ++ ILLUMINA_ADAPTER_1) ∧
    ligate_barcoded_adapters [['G'] ++ core ++ ['C', 'T', 'G', 'C', 'A']]
        ['C', 'T', 'G', 'C', 'A', 'G'] 5 bc =
      [(complement ILLUMINA_ADAPTER_1).reverse ++ (complement bc).reverse
        ++ (complement ['C', 'T', 'G', 'C', 'A']).reverse
        ++ core ++ ['C', 'T', 'G', 'C', 'A'] ++ bc ++ ILLUMINA_ADAPTER_1] := by
  constructor
  · unfold ligate_barcoded_adapters
    refine List.map_congr_left ?_
    intro f _
    unfold ligate_one
    simp [List.append_assoc]
  · unfold ligate_barcoded_adapters
    rw [List.map_cons, List.map_nil]
    have hone : ligate_one ['C', 'T', 'G', 'C', 'A', 'G'] 5 bc
        (['G'] ++ core ++ ['C', 'T', 'G', 'C', 'A']) =
        ((complement ILLUMINA_ADAPTER_1).reverse ++ (complement bc).reverse
          ++ ['T', 'G', 'C', 'A'])
          ++ (['G'] ++ core ++ ['C', 'T', 'G', 'C', 'A'])
          ++ (bc ++ ILLUMINA_ADAPTER_1) := rfl
    rw [hone,
      show (complement ['C', 'T', 'G', 'C', 'A']).reverse =
        (['T', 'G', 'C', 'A', 'G'] : List Char) from by decide]
    simp [List.append_assoc]

set_option maxRecDepth 4000 in
/-- C3 counterexample: ligating an original fragment of length 100 at the
standard parameters yields a molecule of length 182, not the claimed
`100 + 2*(33 + 6 + 5) = 188`: the attached motif slice contributes 4
characters per molecule, not 5 per end. -/
theorem C3_counterexample :
    (ligate_barcoded_adapters [List.replicate 100 'A'] "CTGCAG".toList 5
        "AATTCC".toList).map List.length = [182] ∧
    (182 : Nat) ≠ 100 + 2 * (33 + 6 + 5) := by
  exact ⟨by decide, by decide⟩

/-- C3 amended: whenever `len(recognition) ≤ 2*cut` and
`cut < len(recognition)` (as in the standard `CTGCAG`, cut 5 setup), each
ligated molecule has length
`len(fragment) + 2*(33 + len(barcode)) + (2*cut - len(recognition))`;
for the standard example this is `100 + 78 + 4 = 182`. -/
theorem C3_ligate_length (fragments : List (List Char)) (recognition : List Char)
    (cut : Nat) (barcode : List Char)
    (h1 : recognition.length ≤ 2 * cut) (h2 : cut < recognition.length) :
    (ligate_barcoded_adapters fragments recognition cut barcode).map List.length =
      fragments.map (fun f =>
        f.length + 2 * (33 + barcode.length) + (2 * cut - recognition.length)) := by
  have hc : 0 < cut := by omega
  unfold ligate_barcoded_adapters
  rw [List.map_map]
  refine List.map_congr_left ?_
  intro f _
  simp only [Function.comp_apply]
  unfold ligate_one
  simp only [List.length_append, List.length_reverse, complement_length,
    adapter1_length, pySlice_neg_length recognition cut hc h2]
  omega

/-- Witness for the amended C3 at the standard parameters and an original
fragment of length 100. -/
theorem C3_witness :
    ("CTGCAG".toList.length ≤ 2 * 5 ∧ 5 < "CTGCAG".toList.length) ∧
    (ligate_barcoded_adapters [List.replicate 100 'A'] "CTGCAG".toList 5
        "AATTCC".toList).map List.length =
      [List.replicate 100 'A'].map (fun f =>
        f.length + 2 * (33 + "AATTCC".toList.length) +
          (2 * 5 - "CTGCAG".toList.length)) :=
  ⟨by decide,
   C3_ligate_length [List.replicate 100 'A'] "CTGCAG".toList 5 "AATTCC".toList
     (by decide) (by decide)⟩

/-- C8 counterexample: calling the digest with cut offset 7 on the 6-long
site `CTGCAG` does not fail — no precondition is checked anywhere; Python
slice clamping silently yields an empty leading stub and the entire motif
as trailing stub, returning a normal one-fragment library. -/
theorem C8_counterexample :
    restriction_digest "AAAA".toList "CTGCAG".toList 7 = ["AAAACTGCAG".toList] ∧
    (restriction_digest "AAAA".toList "CTGCAG".toList 7).length = 1 := by
  exact ⟨by decide, by decide⟩

/-- C8 amended: for any cut offset at or beyond the recognition length the
digest silently clamps: every returned piece is the split piece with no
leading stub and the full motif appended — a normal return value, not a
raised error. -/
theorem C8_digest_clamped (S recognition : List Char) (cut : Nat)
    (h : recognition.length ≤ cut) :
    restriction_digest S recognition cut =
      (splitOnSep recognition S).map (fun i => i ++ recognition) := by
  unfold restriction_digest
  have h1 : recognition.drop cut = [] := List.drop_eq_nil_of_le h
  have h2 : recognition.take cut = recognition := List.take_of_length_le h
  simp [h1, h2]

/-- Witness for the amended C8 at cut offset 7 on the 6-long site. -/
theorem C8_witness :
    "CTGCAG".toList.length ≤ 7 ∧
    restriction_digest "AAAA".toList "CTGCAG".toList 7 =
      (splitOnSep "CTGCAG".toList "AAAA".toList).map
        (fun i => i ++ "CTGCAG".toList) :=
  ⟨by decide, C8_digest_clamped "AAAA".toList "CTGCAG".toList 7 (by decide)⟩

end RAD
